import Mathlib

/-!
Shallow embedding of the cron-manage repository (src/cron_manager.py), used to
check the natural-language specification against the code.

Conventions of the embedding:
* Python strings are modelled as `List Char` internally (`String.data` at the
  boundary); splitting, membership and integer parsing are implemented
  explicitly so that every step of the source is visible.
* Python `int(s)` is modelled for the inputs that can actually reach it here
  (tokens produced by `str.split`, hence whitespace-free): an optional sign,
  then ASCII digits with single underscores allowed between digits.
* Whitespace is the ASCII whitespace set used by `str.split()`.
* Remote side effects (SSH connect, backup, upload, install, verify, close)
  are modelled by an oracle `HostWorld` describing how each remote operation
  would turn out, and an action trace recording which operations the code
  performs and in which order.
-/

/-- ASCII whitespace, as recognised by Python `str.split()` / `str.strip()`
(restricted to ASCII, which is all the validator logic depends on). -/
def isSpace (c : Char) : Bool :=
  c == ' ' || c == '\t' || c == '\n' || c == '\r' || c == '\x0b' || c == '\x0c'

/-- Python `c in s` membership test for a single character. -/
def hasChar (c : Char) (l : List Char) : Bool :=
  l.any (fun d => d == c)

/-- Split a character list at every character satisfying `p`, keeping empty
pieces (the behaviour of Python `str.split(sep)` for a one-character `sep`,
with `p` the equality test). -/
def splitPred (p : Char → Bool) : List Char → List (List Char)
  | [] => [[]]
  | c :: rest =>
    if p c then [] :: splitPred p rest
    else
      match splitPred p rest with
      | g :: gs => (c :: g) :: gs
      | [] => [[c]]

/-- Python `str.split(sep)` for a one-character separator. -/
def splitChar (sep : Char) (l : List Char) : List (List Char) :=
  splitPred (fun c => c == sep) l

/-- Python `str.split()` (no argument): split on whitespace runs, dropping
empty pieces. -/
def pySplitWs (l : List Char) : List (List Char) :=
  (splitPred isSpace l).filter (fun g => !g.isEmpty)

/-- Digit-string scanner for Python `int`: `needDigit` is true when the next
character must be a digit (at the start, and right after an underscore).
Underscores may only stand between digits. -/
def pyGo (acc : Nat) (needDigit : Bool) : List Char → Option Nat
  | [] => if needDigit then none else some acc
  | c :: rest =>
    if c.isDigit then pyGo (10 * acc + (c.toNat - 48)) false rest
    else if c == '_' && !needDigit then pyGo acc true rest
    else none

/-- The unsigned part of Python `int(s)`: one or more ASCII digits with
single underscores between digits. -/
def pyNatCore (l : List Char) : Option Nat :=
  pyGo 0 true l

/-- Python `int(s)` for whitespace-free `s` (the only inputs it receives
here): optional `-`/`+` sign, then digits with underscore separators. -/
def pyIntL (l : List Char) : Option Int :=
  match l with
  | [] => none
  | c :: rest =>
    if c == '-' then
      match pyNatCore rest with
      | some n => some (-(n : Int))
      | none => none
    else if c == '+' then
      match pyNatCore rest with
      | some n => some ((n : Int))
      | none => none
    else
      match pyNatCore (c :: rest) with
      | some n => some ((n : Int))
      | none => none

/-- `l` starts with the literal `lit`. -/
def litPre (lit l : List Char) : Bool :=
  l.take lit.length == lit

/-- Concatenate a list of lists (used where the source extends one list in a
loop). -/
def concatAll {α : Type} : List (List α) → List α
  | [] => []
  | l :: ls => l ++ concatAll ls

/-! ## CronValidator (src/cron_manager.py lines 36-122) -/

/-- The five cron fields with their numeric ranges and display names:
minute, hour, day-of-month, month, day-of-week. -/
def cronFields : List (Int × Int × String) :=
  [(0, 59, "分钟"), (0, 23, "小时"), (1, 31, "日期"), (1, 12, "月份"), (0, 7, "星期")]

/-- `mn <= v <= mx`. -/
def inRange (mn mx v : Int) : Bool :=
  decide (mn ≤ v) && decide (v ≤ mx)

/-- The token starts with `*/` (the step syntax test `part.startswith("*/")`). -/
def isStepTok (part : List Char) : Bool :=
  litPre ['*', '/'] part

/-- Sequential map of a fallible function, mirroring the Python list
comprehension `[int(v) for v in ...]` which raises on the first bad element. -/
def optMapAll {α β : Type} (f : α → Option β) : List α → Option (List β)
  | [] => some []
  | a :: rest =>
    match f a, optMapAll f rest with
    | some b, some bs => some (b :: bs)
    | _, _ => none

/-- Validation of a single cron field, mirroring the body of the loop in
`CronValidator.validate_schedule`: `*` passes; `*/N` checks only that `N`
parses and is positive; a token containing `-` is parsed as a range (both
endpoints in range, start not greater than end); a token containing `,` is
parsed as a list of in-range integers; otherwise a bare in-range integer.
`none` means the field passed; `some msg` is the error message returned. -/
def checkField (mn mx : Int) (name : String) (part : List Char) : Option String :=
  if part == ['*'] then none
  else if isStepTok part then
    match pyIntL (part.drop 2) with
    | some step => if step ≤ 0 then some (name ++ "的步长必须大于0") else none
    | none => some (name ++ "的步长格式错误")
  else if hasChar '-' part then
    match splitChar '-' part with
    | [a, b] =>
      match pyIntL a, pyIntL b with
      | some s, some e =>
        if inRange mn mx s && inRange mn mx e then
          if s > e then some (name ++ "范围起始值不能大于结束值") else none
        else
          some (name ++ "范围 " ++ toString s ++ "-" ++ toString e ++
                " 超出有效范围 " ++ toString mn ++ "-" ++ toString mx)
      | _, _ => some (name ++ "范围格式错误")
    | _ => some (name ++ "范围格式错误")
  else if hasChar ',' part then
    match optMapAll pyIntL (splitChar ',' part) with
    | some vs =>
      match vs.find? (fun v => !inRange mn mx v) with
      | some v => some (name ++ "值 " ++ toString v ++ " 超出有效范围 " ++
                        toString mn ++ "-" ++ toString mx)
      | none => none
    | none => some (name ++ "列表格式错误")
  else
    match pyIntL part with
    | some v =>
      if inRange mn mx v then none
      else some (name ++ "值 " ++ toString v ++ " 超出有效范围 " ++
                 toString mn ++ "-" ++ toString mx)
    | none => some (name ++ "值格式错误: " ++ String.mk part)

/-- First error over the zipped (field, range) pairs, mirroring the loop in
`validate_schedule` which returns on the first failing field. -/
def firstFieldError : List (List Char × Int × Int × String) → Option String
  | [] => none
  | (part, mn, mx, name) :: rest =>
    match checkField mn mx name part with
    | some m => some m
    | none => firstFieldError rest

def wrongCountMsg : String := "Cron表达式必须有5个字段: 分 时 日 月 周"

def schedOkMsg : String := "验证通过"

/-- `CronValidator.validate_schedule`. -/
def validate_schedule (schedule : String) : Bool × String :=
  let parts := pySplitWs schedule.data
  if parts.length ≠ 5 then (false, wrongCountMsg)
  else
    match firstFieldError (parts.zip cronFields) with
    | some m => (false, m)
    | none => (true, schedOkMsg)

/-! Dangerous-command pattern matchers for `CronValidator.validate_command`.
The source uses `re.search` with `re.IGNORECASE` on four fixed patterns; the
command is lowercased here and each pattern is matched structurally
(`\s+` = one or more whitespace characters, `.` = any character except a
newline). -/

/-- Consume one or more whitespace characters, returning the rest. -/
def skipWs1 : List Char → Option (List Char)
  | [] => none
  | c :: rest =>
    if isSpace c then some ((c :: rest).dropWhile isSpace) else none

/-- `.*lit` matching: some (newline-free) prefix followed by `lit`. -/
def dotStarThen (lit : List Char) : List Char → Bool
  | [] => litPre lit []
  | c :: rest => litPre lit (c :: rest) || (c != '\n' && dotStarThen lit rest)

/-- Match `rm\s+-rf\s+/` at the head of `l`. -/
def rmRfAt (l : List Char) : Bool :=
  litPre ['r', 'm'] l &&
    match skipWs1 (l.drop 2) with
    | some l2 =>
      litPre ['-', 'r', 'f'] l2 &&
        match skipWs1 (l2.drop 3) with
        | some l3 => litPre ['/'] l3
        | none => false
    | none => false

/-- Match `dd\s+if=.*of=/dev/` at the head of `l`. -/
def ddAt (l : List Char) : Bool :=
  litPre ['d', 'd'] l &&
    match skipWs1 (l.drop 2) with
    | some l2 =>
      litPre ['i', 'f', '='] l2 &&
        dotStarThen ['o', 'f', '=', '/', 'd', 'e', 'v', '/'] (l2.drop 3)
    | none => false

/-- Match `mkfs\.` at the head of `l`. -/
def mkfsAt (l : List Char) : Bool :=
  litPre ['m', 'k', 'f', 's', '.'] l

/-- Match `format\s+` at the head of `l`. -/
def fmtAt (l : List Char) : Bool :=
  litPre ['f', 'o', 'r', 'm', 'a', 't'] l && (skipWs1 (l.drop 6)).isSome

/-- `re.search`: the head matcher succeeds at some position of `l`. -/
def searchAny (m : List Char → Bool) : List Char → Bool
  | [] => m []
  | c :: rest => m (c :: rest) || searchAny m rest

/-- Any of the four dangerous patterns occurs in the (lowercased) command. -/
def dangerousCmd (l : List Char) : Bool :=
  let lc := l.map Char.toLower
  searchAny rmRfAt lc || searchAny ddAt lc || searchAny mkfsAt lc || searchAny fmtAt lc

def emptyCmdMsg : String := "命令不能为空"

def cmdOkMsg : String := "命令验证通过"

/-- `CronValidator.validate_command`: empty or whitespace-only commands are
rejected; then the dangerous-pattern scan; all dangerous patterns share one
message shape carrying the command. -/
def validate_command (command : String) : Bool × String :=
  if command.data.all isSpace then (false, emptyCmdMsg)
  else if dangerousCmd command.data then
    (false, "检测到危险命令，请仔细检查: " ++ command)
  else (true, cmdOkMsg)


/-! ## CronConfig (src/cron_manager.py lines 125-254)

The YAML dictionary is modelled structurally: `Option` marks keys that may be
absent, and Python truthiness of an optional string (absent, or present but
empty, both count as unset) is `truthy`. -/

structure ServerGroup where
  group : Option String
  hosts : Option (List String)
deriving DecidableEq

structure Job where
  name : Option String
  schedule : Option String
  command : Option String
  user : Option String
  enabled : Option Bool
  description : Option String
  log_stdout : Option String
  log_stderr : Option String
deriving DecidableEq

structure Config where
  servers : Option (List ServerGroup)
  jobs : Option (List Job)
  environment : Option (List (String × String))
  config_file : String
deriving DecidableEq

/-- Python truthiness of `d.get(key)` for a string value: present and
non-empty. -/
def truthy : Option String → Bool
  | some s => s ≠ ""
  | none => false

/-- Errors for one server group (`CronConfig.validate`, server loop body).
The label is `server_group.get('group', i)`. -/
def serverGroupErrs (i : Nat) (sg : ServerGroup) : List String :=
  (if sg.group.isNone then
    ["服务器组 " ++ toString i ++ " 缺少 \x27group\x27 字段"]
   else []) ++
  (match sg.hosts with
   | none =>
     ["服务器组 \x27" ++ sg.group.getD (toString i) ++ "\x27 缺少 \x27hosts\x27 字段"]
   | some hs =>
     if hs.isEmpty then
       ["服务器组 \x27" ++ sg.group.getD (toString i) ++ "\x27 的 hosts 列表为空"]
     else [])

def serversErrs : Nat → List ServerGroup → List String
  | _, [] => []
  | i, sg :: rest => serverGroupErrs i sg ++ serversErrs (i + 1) rest

/-- Schedule and command errors for one job, with its display id `jid`. -/
def jobErrsOne (jid : String) (j : Job) : List String :=
  (match j.schedule with
   | none => [jid ++ " 缺少 \x27schedule\x27 字段"]
   | some sch =>
     match validate_schedule sch with
     | (true, _) => []
     | (false, m) => [jid ++ " 调度表达式错误: " ++ m]) ++
  (match j.command with
   | none => [jid ++ " 缺少 \x27command\x27 字段"]
   | some cmd =>
     match validate_command cmd with
     | (true, _) => []
     | (false, m) => [jid ++ " 命令验证失败: " ++ m])

/-- Job loop of `CronConfig.validate`: `seen` is the `job_names` set; a
present name is added even when duplicated, and upgrades the display id. -/
def jobsErrs : Nat → List String → List Job → List String
  | _, _, [] => []
  | i, seen, j :: rest =>
    match j.name with
    | none =>
      ("任务 " ++ toString i ++ " 缺少 \x27name\x27 字段") ::
        (jobErrsOne ("任务 " ++ toString i) j ++ jobsErrs (i + 1) seen rest)
    | some n =>
      (if seen.contains n then ["任务名称重复: " ++ n] else []) ++
        jobErrsOne ("任务 \x27" ++ n ++ "\x27") j ++ jobsErrs (i + 1) (n :: seen) rest

/-- `CronConfig.validate`: missing `servers`/`jobs` keys short-circuit, then
server-group and job errors accumulate; the result is
`(len(errors) == 0, errors)`. -/
def Config.validate (c : Config) : Bool × List String :=
  let missing :=
    (if c.servers.isNone then ["缺少 \x27servers\x27 配置"] else []) ++
    (if c.jobs.isNone then ["缺少 \x27jobs\x27 配置"] else [])
  if !missing.isEmpty then (false, missing)
  else
    let errs := serversErrs 0 (c.servers.getD []) ++ jobsErrs 0 [] (c.jobs.getD [])
    (errs.isEmpty, errs)

/-- `CronConfig.get_hosts`: flatten the host lists of the groups matching the
optional group filter, in order and without deduplication. -/
def Config.get_hosts (c : Config) (group : Option String) : List String :=
  concatAll
    (((c.servers.getD []).filter (fun sg => group.isNone || sg.group == group)).map
      (fun sg => sg.hosts.getD []))

/-- `CronConfig.get_jobs`: jobs, optionally only those with
`j.get('enabled', True)` truthy. -/
def Config.get_jobs (c : Config) (enabledOnly : Bool) : List Job :=
  if enabledOnly then (c.jobs.getD []).filter (fun j => j.enabled.getD true)
  else c.jobs.getD []

/-- The `user` argument of `generate_crontab` filters only when truthy
(Python `if user and job.get('user') != user`). -/
def userFilterActive : Option String → Bool
  | some u => u ≠ ""
  | none => false

/-- The enabled jobs that `generate_crontab` emits under the user filter. -/
def emittedJobs (c : Config) (user : Option String) : List Job :=
  (c.get_jobs true).filter (fun j => !userFilterActive user || j.user == user)

/-- Log redirection applied to the command text before emission
(`generate_crontab` lines 243-249): `>>` for a truthy stdout path, then
`2>>` for a truthy stderr path, else `2>&1` when only stdout is set. -/
def applyRedirect (j : Job) : String :=
  let c1 :=
    if truthy j.log_stdout then j.command.getD "" ++ " >> " ++ j.log_stdout.getD ""
    else j.command.getD ""
  if truthy j.log_stderr then c1 ++ " 2>> " ++ j.log_stderr.getD ""
  else if truthy j.log_stdout then c1 ++ " 2>&1"
  else c1

/-- The `<schedule> <command>` line of one job block. In the source the
required keys are plain lookups (the validation gate guarantees presence in
the deploy flow); absent keys are rendered as the empty string here. -/
def jobCmdLine (j : Job) : String :=
  j.schedule.getD "" ++ " " ++ applyRedirect j

/-- One job block: name comment, optional description comment, schedule line,
trailing blank line. -/
def jobBlock (j : Job) : List String :=
  ("# " ++ j.name.getD "") ::
    ((match j.description with
      | some d => ["# " ++ d]
      | none => []) ++ [jobCmdLine j, ""])

/-- The environment-variable block: emitted (with its trailing blank line)
exactly when the `environment` key is present. -/
def envLines (c : Config) : List String :=
  match c.environment with
  | some kvs => kvs.map (fun kv => kv.fst ++ "=" ++ kv.snd) ++ [""]
  | none => []

/-- The lines of `CronConfig.generate_crontab`, with the wall-clock reading
`datetime.now().strftime(...)` passed in as the explicit argument `now`. -/
def generate_crontab_lines (c : Config) (user : Option String) (now : String) :
    List String :=
  ["# Generated by Cron Manager",
   "# Generated at: " ++ now,
   "# Config file: " ++ c.config_file,
   ""] ++ envLines c ++ concatAll ((emittedJobs c user).map jobBlock)

/-- `CronConfig.generate_crontab` (`"\n".join(lines)`). -/
def Config.generate_crontab (c : Config) (user : Option String) (now : String) :
    String :=
  String.intercalate "\n" (generate_crontab_lines c user now)

/-! ## CronDeployer (src/cron_manager.py lines 257-379)

Remote operations are oracles: `HostWorld` fixes how each operation on one
host would turn out, and the returned trace lists the operations the code
actually performs, in order. -/

structure HostWorld where
  /-- The SSH connect of `deploy_crontab`'s own session succeeds. -/
  connectOk : Bool
  connectErr : String
  /-- `backup_crontab` (which opens its own session) completes without an
  exception. -/
  backupOk : Bool
  backupPath : String
  backupErr : String
  /-- The SFTP upload of the rendered file succeeds. -/
  uploadOk : Bool
  uploadErr : String
  /-- Exit status of `crontab -u <user> <tmp> && rm -f <tmp>`. -/
  installExit : Nat
  installErr : String
  /-- Output of the verification read-back `crontab -u <user> -l | wc -l`. -/
  lineCount : String
deriving DecidableEq

inductive Act where
  /-- `_get_ssh_client` attempted for the main session. -/
  | connectAttempt
  /-- `backup_crontab` invoked. -/
  | backupAttempt
  /-- The backup-failure warning printed. -/
  | warnBackup
  /-- `sftp.put` of the rendered content. -/
  | upload
  /-- The install command executed. -/
  | install
  /-- The verification read-back executed. -/
  | verify
  /-- `client.close()` on the main session. -/
  | closeMain
deriving DecidableEq

/-- `CronDeployer.backup_crontab`: best-effort; success returns the backup
file path, an exception returns its message. -/
def backup_crontab (w : HostWorld) : Bool × String :=
  if w.backupOk then (true, w.backupPath) else (false, w.backupErr)

/-- `CronDeployer.deploy_crontab`: connect, optional advisory backup, upload,
install (raising on a non-zero exit status), verify, close, with the outer
`except` turning any raise into a failed `(False, str(e))` outcome. The
trace records the remote operations performed. Note that `client.close()`
is reached only on the fully successful path: an upload failure or a
non-zero install exit raises past it. -/
def deploy_crontab (w : HostWorld) (backup : Bool) : (Bool × String) × List Act :=
  if w.connectOk then
    let bActs : List Act :=
      if backup then
        if (backup_crontab w).fst then [Act.backupAttempt]
        else [Act.backupAttempt, Act.warnBackup]
      else []
    let pre := Act.connectAttempt :: bActs
    if w.uploadOk then
      if w.installExit == 0 then
        ((true, "部署成功，共 " ++ w.lineCount ++ " 行"),
         pre ++ [Act.upload, Act.install, Act.verify, Act.closeMain])
      else
        ((false, "安装crontab失败: " ++ w.installErr), pre ++ [Act.upload, Act.install])
    else ((false, w.uploadErr), pre ++ [Act.upload])
  else ((false, "SSH连接失败: " ++ w.connectErr), [Act.connectAttempt])

/-! ## CronManager.deploy (src/cron_manager.py lines 502-584) -/

inductive DeployResult where
  /-- Validation failed: the deployment is aborted before any host work. -/
  | validationFailed (errors : List String)
  /-- The target host list is empty: aborted with the no-hosts error. -/
  | noHosts
  /-- Dry-run: the rendered content and host list are displayed only. -/
  | dryRunPreview (content : String) (hosts : List String)
  /-- One `(host, success, message)` outcome per submitted host. -/
  | completed (outcomes : List (String × Bool × String))
deriving DecidableEq

/-- The boolean `deploy` returns: `False` on the two abort branches, `True`
for a dry run, and `failed_count == 0` after a real run. -/
def DeployResult.toBool : DeployResult → Bool
  | .validationFailed _ => false
  | .noHosts => false
  | .dryRunPreview _ _ => true
  | .completed outs => outs.all (fun o => o.snd.fst)

/-- `CronManager.deploy`: validate (aborting on failure), resolve the host
list (aborting when it is empty), render once, then either preview (dry run)
or run `deploy_crontab` with `backup=True` once per entry of the host list.
`worlds` is the remote oracle per host; the second component collects each
submitted host's action trace (empty lists of traces mean no remote
operation was performed at all). Outcome order abstracts the
completion-order nondeterminism of `as_completed`. -/
def deploy (c : Config) (hostsArg : Option (List String)) (dryRun : Bool)
    (worlds : String → HostWorld) (now : String) :
    DeployResult × List (String × List Act) :=
  let v := c.validate
  if v.fst then
    let hosts := match hostsArg with | some hs => hs | none => c.get_hosts none
    if hosts.isEmpty then (DeployResult.noHosts, [])
    else
      let content := c.generate_crontab none now
      if dryRun then (DeployResult.dryRunPreview content hosts, [])
      else
        let runs := hosts.map (fun h => (h, deploy_crontab (worlds h) true))
        (DeployResult.completed (runs.map (fun r => (r.fst, r.snd.fst))),
         runs.map (fun r => (r.fst, r.snd.snd)))
  else (DeployResult.validationFailed v.snd, [])

/-! ## Specification-side predicate for the schedule validator (claim C5)

These definitions follow the words of the claim, to be compared with
`validate_schedule` above: a field passes when it is `*`, a step `*/N` with
`N` a positive integer, a range `A-B` with both endpoints in the field's
numeric range and `A <= B`, a comma-separated list of in-range integers, or
a single in-range integer. An "integer" token here is a numeral in the
program's integer syntax written without a minus sign (in cron syntax `-` is
the range separator; the program's parser additionally allows a leading `+`
and underscore digit-group separators). -/

/-- A claim-side integer token: a minus-sign-free numeral, valued by the
program's integer parser. -/
def specTokenInt (l : List Char) : Option Int :=
  if hasChar '-' l then none else pyIntL l

/-- Claim side: a step `*/N` with `N` a positive integer. -/
def specStep (part : List Char) : Bool :=
  isStepTok part &&
    match pyIntL (part.drop 2) with
    | some n => decide (0 < n)
    | none => false

/-- Claim side: a range `A-B` (single hyphen) with in-range endpoints and
`A <= B`. -/
def specRange (mn mx : Int) (part : List Char) : Bool :=
  match splitChar '-' part with
  | [a, b] =>
    match specTokenInt a, specTokenInt b with
    | some s, some e => inRange mn mx s && inRange mn mx e && decide (s ≤ e)
    | _, _ => false
  | _ => false

/-- Claim side: a comma-separated list whose every element is an in-range
integer. -/
def specList (mn mx : Int) (part : List Char) : Bool :=
  hasChar ',' part &&
    match optMapAll specTokenInt (splitChar ',' part) with
    | some vs => vs.all (inRange mn mx)
    | none => false

/-- Claim side: a single in-range integer. -/
def specBare (mn mx : Int) (part : List Char) : Bool :=
  match specTokenInt part with
  | some v => inRange mn mx v
  | none => false

/-- Claim side: one field passes. -/
def specFieldOk (mn mx : Int) (part : List Char) : Bool :=
  part == ['*'] || specStep part || specRange mn mx part ||
    specList mn mx part || specBare mn mx part

/-- The numeric ranges as the claim lists them: minute 0-59, hour 0-23,
day-of-month 1-31, month 1-12, day-of-week 0-7. -/
def specRanges : List (Int × Int) :=
  [(0, 59), (0, 23), (1, 31), (1, 12), (0, 7)]

/-- Claim side: the whole expression passes — exactly 5 whitespace-separated
fields, each passing its field check. -/
def scheduleSpecOk (s : String) : Bool :=
  let parts := pySplitWs s.data
  (parts.length == 5) &&
    (parts.zip specRanges).all (fun pr => specFieldOk pr.snd.fst pr.snd.snd pr.fst)

/-! ## Concrete fixtures for witnesses and counterexamples -/

def validJob : Job :=
  { name := some "backup-db", schedule := some "0 2 * * *",
    command := some "echo hi", user := none, enabled := none,
    description := none, log_stdout := none, log_stderr := none }

def cfgNoJobs : Config :=
  { servers := some [{ group := some "web", hosts := some ["h1"] }],
    jobs := none, environment := none, config_file := "prod.yaml" }

def cfgNoHosts : Config :=
  { servers := some [], jobs := some [validJob], environment := none,
    config_file := "prod.yaml" }

def cfgDupHost : Config :=
  { servers := some [{ group := some "a", hosts := some ["h1"] },
                     { group := some "b", hosts := some ["h1"] }],
    jobs := some [validJob], environment := none, config_file := "prod.yaml" }

def jobLogs : Job :=
  { validJob with
    name := some "logged"
    log_stdout := some "/var/log/o.log"
    log_stderr := some "/var/log/e.log" }

def cfgLogs : Config :=
  { servers := some [{ group := some "web", hosts := some ["h1"] }],
    jobs := some [jobLogs], environment := none, config_file := "prod.yaml" }

def wOk : HostWorld :=
  { connectOk := true, connectErr := "refused", backupOk := true,
    backupPath := "/var/backups/crontab/x", backupErr := "be",
    uploadOk := true, uploadErr := "ue", installExit := 0, installErr := "ie",
    lineCount := "12" }

def wInstallFail : HostWorld := { wOk with installExit := 1 }

def worldsOk : String → HostWorld := fun _ => wOk


/-! ## Lemmas about the string primitives -/

theorem hasChar_iff {c : Char} {l : List Char} : hasChar c l = true ↔ c ∈ l := by
  simp [hasChar, List.any_eq_true]

theorem splitPred_ne_nil (p : Char → Bool) (l : List Char) : splitPred p l ≠ [] := by
  induction l with
  | nil => simp [splitPred]
  | cons c rest ih =>
    simp only [splitPred]
    split
    · simp
    · cases h : splitPred p rest with
      | nil => simp
      | cons g gs => simp

theorem splitPred_cons_false {p : Char → Bool} {c : Char} (l : List Char)
    (h : p c = false) :
    ∃ g gs, splitPred p (c :: l) = (c :: g) :: gs ∧ splitPred p l = g :: gs := by
  cases hs : splitPred p l with
  | nil => exact absurd hs (splitPred_ne_nil p l)
  | cons g gs => exact ⟨g, gs, by simp [splitPred, h, hs], rfl⟩

theorem mem_splitPred_pred_false {p : Char → Bool} {l g : List Char}
    (hg : g ∈ splitPred p l) {c : Char} (hc : c ∈ g) : p c = false := by
  induction l generalizing g with
  | nil =>
    simp [splitPred] at hg
    subst hg
    simp at hc
  | cons d rest ih =>
    by_cases hd : p d = true
    · simp [splitPred, hd] at hg
      rcases hg with rfl | hg
      · simp at hc
      · exact ih hg hc
    · have hd' : p d = false := by simpa using hd
      obtain ⟨g0, gs, heq, hrest⟩ := splitPred_cons_false rest hd'
      rw [heq] at hg
      rcases List.mem_cons.mp hg with rfl | hg
      · rcases List.mem_cons.mp hc with rfl | hc
        · exact hd'
        · exact ih (hrest ▸ List.mem_cons_self g0 gs) hc
      · exact ih (hrest ▸ List.mem_cons_of_mem g0 hg) hc

theorem mem_of_mem_splitPred {p : Char → Bool} {l g : List Char}
    (hg : g ∈ splitPred p l) {c : Char} (hc : c ∈ g) : c ∈ l := by
  induction l generalizing g with
  | nil =>
    simp [splitPred] at hg
    subst hg
    simp at hc
  | cons d rest ih =>
    by_cases hd : p d = true
    · simp [splitPred, hd] at hg
      rcases hg with rfl | hg
      · simp at hc
      · exact List.mem_cons_of_mem d (ih hg hc)
    · have hd' : p d = false := by simpa using hd
      obtain ⟨g0, gs, heq, hrest⟩ := splitPred_cons_false rest hd'
      rw [heq] at hg
      rcases List.mem_cons.mp hg with rfl | hg
      · rcases List.mem_cons.mp hc with rfl | hc
        · exact List.mem_cons_self c rest
        · exact List.mem_cons_of_mem d (ih (hrest ▸ List.mem_cons_self g0 gs) hc)
      · exact List.mem_cons_of_mem d (ih (hrest ▸ List.mem_cons_of_mem g0 hg) hc)

theorem splitPred_of_all_false {p : Char → Bool} {l : List Char}
    (h : ∀ c ∈ l, p c = false) : splitPred p l = [l] := by
  induction l with
  | nil => simp [splitPred]
  | cons c rest ih =>
    have hc : p c = false := h c (List.mem_cons_self c rest)
    have hrest : splitPred p rest = [rest] :=
      ih (fun d hd => h d (List.mem_cons_of_mem c hd))
    simp [splitPred, hc, hrest]

theorem exists_mem_splitPred {p : Char → Bool} {l : List Char} {c : Char}
    (hc : c ∈ l) (hpc : p c = false) : ∃ g ∈ splitPred p l, c ∈ g := by
  induction l with
  | nil => simp at hc
  | cons d rest ih =>
    by_cases hd : p d = true
    · rcases List.mem_cons.mp hc with rfl | hc'
      · rw [hd] at hpc; cases hpc
      · obtain ⟨g, hg, hcg⟩ := ih hc'
        exact ⟨g, by simp [splitPred, hd, hg], hcg⟩
    · have hd' : p d = false := by simpa using hd
      obtain ⟨g0, gs, heq, hrest⟩ := splitPred_cons_false rest hd'
      rcases List.mem_cons.mp hc with rfl | hc'
      · exact ⟨c :: g0, by rw [heq]; exact List.mem_cons_self _ _,
          List.mem_cons_self c g0⟩
      · obtain ⟨g, hg, hcg⟩ := ih hc'
        rw [hrest] at hg
        rcases List.mem_cons.mp hg with rfl | hg'
        · exact ⟨d :: g, by rw [heq]; exact List.mem_cons_self _ _,
            List.mem_cons_of_mem d hcg⟩
        · exact ⟨g, by rw [heq]; exact List.mem_cons_of_mem _ hg', hcg⟩

theorem splitPred_length (p : Char → Bool) (l : List Char) :
    (splitPred p l).length = l.countP p + 1 := by
  induction l with
  | nil => simp [splitPred]
  | cons c rest ih =>
    by_cases hc : p c = true
    · simp [splitPred, hc, List.countP_cons, ih]
    · have hc' : p c = false := by simpa using hc
      obtain ⟨g0, gs, heq, hrest⟩ := splitPred_cons_false rest hc'
      rw [heq]
      rw [hrest] at ih
      simp [List.countP_cons, hc'] at ih ⊢
      omega

theorem hasChar_of_splitChar_pair {sep : Char} {l a b : List Char}
    (h : splitChar sep l = [a, b]) : hasChar sep l = true := by
  have hlen : (splitPred (fun c => c == sep) l).length = 2 := by
    rw [show splitPred (fun c => c == sep) l = splitChar sep l from rfl, h]; rfl
  rw [splitPred_length] at hlen
  have hpos : 0 < l.countP (fun c => c == sep) := by omega
  obtain ⟨c, hcl, hcp⟩ := List.countP_pos_iff.mp hpos
  have : c = sep := by simpa using hcp
  subst this
  exact hasChar_iff.mpr hcl

/-! ## Lemmas about the integer parser -/

theorem pyGo_chars {l : List Char} :
    ∀ {acc : Nat} {nd : Bool} {n : Nat}, pyGo acc nd l = some n →
      ∀ c ∈ l, c.isDigit = true ∨ c = '_' := by
  induction l with
  | nil => intro acc nd n _ c hc; simp at hc
  | cons d rest ih =>
    intro acc nd n h c hc
    simp only [pyGo] at h
    by_cases hd : d.isDigit = true
    · rw [if_pos hd] at h
      rcases List.mem_cons.mp hc with rfl | hc'
      · exact Or.inl hd
      · exact ih h c hc'
    · rw [if_neg hd] at h
      by_cases hu : (d == '_' && !nd) = true
      · rw [if_pos hu] at h
        rcases List.mem_cons.mp hc with rfl | hc'
        · simp only [Bool.and_eq_true, beq_iff_eq] at hu
          exact Or.inr hu.1
        · exact ih h c hc'
      · rw [if_neg hu] at h
        cases h

theorem pyIntL_chars {l : List Char} {v : Int} (h : pyIntL l = some v) :
    ∀ c ∈ l, c.isDigit = true ∨ c = '_' ∨ c = '+' ∨ c = '-' := by
  intro c hc
  cases l with
  | nil => cases h
  | cons d rest =>
    simp only [pyIntL] at h
    by_cases hm : (d == '-') = true
    · rw [if_pos hm] at h
      cases hn : pyNatCore rest with
      | none => rw [hn] at h; cases h
      | some n =>
        rcases List.mem_cons.mp hc with rfl | hc'
        · exact Or.inr (Or.inr (Or.inr (by simpa using hm)))
        · rcases pyGo_chars hn c hc' with h1 | h1
          · exact Or.inl h1
          · exact Or.inr (Or.inl h1)
    · rw [if_neg hm] at h
      by_cases hp : (d == '+') = true
      · rw [if_pos hp] at h
        cases hn : pyNatCore rest with
        | none => rw [hn] at h; cases h
        | some n =>
          rcases List.mem_cons.mp hc with rfl | hc'
          · exact Or.inr (Or.inr (Or.inl (by simpa using hp)))
          · rcases pyGo_chars hn c hc' with h1 | h1
            · exact Or.inl h1
            · exact Or.inr (Or.inl h1)
      · rw [if_neg hp] at h
        cases hn : pyNatCore (d :: rest) with
        | none => rw [hn] at h; cases h
        | some n =>
          rcases pyGo_chars hn c hc with h1 | h1
          · exact Or.inl h1
          · exact Or.inr (Or.inl h1)

theorem pyIntL_none_of_mem {l : List Char} {c : Char} (hc : c ∈ l)
    (h1 : c.isDigit = false) (h2 : c ≠ '_') (h3 : c ≠ '+') (h4 : c ≠ '-') :
    pyIntL l = none := by
  cases h : pyIntL l with
  | none => rfl
  | some v =>
    rcases pyIntL_chars h c hc with hd | hd | hd | hd
    · rw [h1] at hd; cases hd
    · exact absurd hd h2
    · exact absurd hd h3
    · exact absurd hd h4

theorem pyIntL_none_comma {l : List Char} (hc : ',' ∈ l) : pyIntL l = none :=
  pyIntL_none_of_mem hc (by decide) (by decide) (by decide) (by decide)

theorem pyIntL_star_head (g : List Char) : pyIntL ('*' :: g) = none := by
  have h1 : (('*' : Char) == '-') = false := by decide
  have h2 : (('*' : Char) == '+') = false := by decide
  have h3 : ('*' : Char).isDigit = false := by decide
  have h4 : (('*' : Char) == '_') = false := by decide
  simp only [pyIntL, h1, h2, if_false, pyNatCore, pyGo, h3, h4,
    Bool.false_and, Bool.false_eq_true, if_false]

theorem specTokenInt_eq_pyIntL {l : List Char} (h : hasChar '-' l = false) :
    specTokenInt l = pyIntL l := by
  simp [specTokenInt, h]

theorem specTokenInt_star_head (g : List Char) : specTokenInt ('*' :: g) = none := by
  unfold specTokenInt
  split
  · rfl
  · exact pyIntL_star_head g

/-! ## Lemmas about optMapAll -/

theorem optMapAll_congr {α β : Type} {f g : α → Option β} {l : List α}
    (h : ∀ a ∈ l, f a = g a) : optMapAll f l = optMapAll g l := by
  induction l with
  | nil => rfl
  | cons a rest ih =>
    simp only [optMapAll]
    rw [h a (List.mem_cons_self a rest),
      ih (fun x hx => h x (List.mem_cons_of_mem a hx))]

theorem optMapAll_none_of_mem {α β : Type} {f : α → Option β} {l : List α}
    {a : α} (ha : a ∈ l) (hf : f a = none) : optMapAll f l = none := by
  induction l with
  | nil => simp at ha
  | cons b rest ih =>
    rcases List.mem_cons.mp ha with rfl | ha'
    · simp [optMapAll, hf]
    · simp only [optMapAll, ih ha']
      cases f b <;> rfl

/-! ## Shape lemmas for field tokens -/

theorem isStepTok_shape {part : List Char} (h : isStepTok part = true) :
    ∃ rest, part = '*' :: '/' :: rest := by
  cases part with
  | nil => simp [isStepTok, litPre] at h
  | cons c1 t =>
    cases t with
    | nil => simp [isStepTok, litPre, List.take] at h
    | cons c2 rest =>
      simp [isStepTok, litPre, List.take] at h
      exact ⟨rest, by rw [h.1, h.2]⟩

theorem bool_false {b : Bool} (h : ¬ b = true) : b = false := by
  cases b
  · rfl
  · exact absurd rfl h

theorem hasChar_false_of_mem_splitChar {sep : Char} {l g : List Char}
    (hg : g ∈ splitChar sep l) : hasChar sep g = false := by
  cases hc : hasChar sep g
  · rfl
  · have hg' : g ∈ splitPred (fun c => c == sep) l := hg
    have := mem_splitPred_pred_false hg' (hasChar_iff.mp hc)
    simp at this

theorem hasChar_false_in_piece {ch sep : Char} {l g : List Char}
    (hg : g ∈ splitChar sep l) (h : hasChar ch l = false) : hasChar ch g = false := by
  cases hc : hasChar ch g
  · rfl
  · have hg' : g ∈ splitPred (fun c => c == sep) l := hg
    have : ch ∈ l := mem_of_mem_splitPred hg' (hasChar_iff.mp hc)
    rw [hasChar_iff.mpr this] at h
    cases h

theorem specBare_false_of_dash {mn mx : Int} {part : List Char}
    (h : hasChar '-' part = true) : specBare mn mx part = false := by
  simp [specBare, specTokenInt, h]

theorem specBare_false_star {mn mx : Int} (g : List Char) :
    specBare mn mx ('*' :: g) = false := by
  simp [specBare, specTokenInt_star_head]

theorem specRange_false_star {mn mx : Int} (g : List Char) :
    specRange mn mx ('*' :: g) = false := by
  have hd : (('*' : Char) == '-') = false := by decide
  obtain ⟨g0, gs, heq, _⟩ :=
    splitPred_cons_false (p := fun c => c == '-') (c := '*') g hd
  have heq' : splitChar '-' ('*' :: g) = ('*' :: g0) :: gs := heq
  rw [specRange, heq']
  cases gs with
  | nil => rfl
  | cons b gs2 =>
    cases gs2 with
    | nil => simp [specTokenInt_star_head]
    | cons _ _ => rfl

theorem specList_false_star {mn mx : Int} (g : List Char) :
    specList mn mx ('*' :: g) = false := by
  have hd : (('*' : Char) == ',') = false := by decide
  obtain ⟨g0, gs, heq, _⟩ :=
    splitPred_cons_false (p := fun c => c == ',') (c := '*') g hd
  have heq' : splitChar ',' ('*' :: g) = ('*' :: g0) :: gs := heq
  have hnone : optMapAll specTokenInt (splitChar ',' ('*' :: g)) = none := by
    rw [heq']
    exact optMapAll_none_of_mem (List.mem_cons_self _ _) (specTokenInt_star_head g0)
  rw [specList, hnone]
  simp

theorem specList_false_dash {mn mx : Int} {part : List Char}
    (h : hasChar '-' part = true) : specList mn mx part = false := by
  have hm : '-' ∈ part := hasChar_iff.mp h
  have hp : ((('-' : Char)) == ',') = false := by decide
  obtain ⟨g, hg, hcg⟩ := exists_mem_splitPred (p := fun c => c == ',') hm hp
  have hg' : g ∈ splitChar ',' part := hg
  have hgd : hasChar '-' g = true := hasChar_iff.mpr hcg
  have hnone : optMapAll specTokenInt (splitChar ',' part) = none :=
    optMapAll_none_of_mem hg' (by simp [specTokenInt, hgd])
  rw [specList, hnone]
  simp

theorem specRange_false_nodash {mn mx : Int} {part : List Char}
    (h : hasChar '-' part = false) : specRange mn mx part = false := by
  have hall : ∀ c ∈ part, ((c == '-') : Bool) = false := by
    intro c hc
    cases hcd : (c == '-')
    · rfl
    · have : c = '-' := by simpa using hcd
      subst this
      rw [hasChar_iff.mpr hc] at h
      cases h
  have hs : splitChar '-' part = [part] := splitPred_of_all_false hall
  rw [specRange, hs]

theorem specBare_false_comma {mn mx : Int} {part : List Char}
    (hdash : hasChar '-' part = false) (hcomma : hasChar ',' part = true) :
    specBare mn mx part = false := by
  have : pyIntL part = none := pyIntL_none_comma (hasChar_iff.mp hcomma)
  simp [specBare, specTokenInt, hdash, this]

theorem checkField_eq_spec (mn mx : Int) (name : String) (part : List Char) :
    (checkField mn mx name part = none) ↔ specFieldOk mn mx part = true := by
  by_cases hstar : (part == ['*']) = true
  · simp [checkField, specFieldOk, hstar]
  · have hstar' : (part == ['*']) = false := bool_false hstar
    by_cases hstep : isStepTok part = true
    · -- step branch `*/N`
      obtain ⟨rest, rfl⟩ := isStepTok_shape hstep
      have hdrop : (('*' :: '/' :: rest).drop 2) = rest := rfl
      rw [checkField, if_neg (by simp [hstar']), if_pos hstep, hdrop]
      rw [specFieldOk, hstar', specRange_false_star, specList_false_star,
        specBare_false_star, specStep, hstep, hdrop]
      cases hp : pyIntL rest with
      | none => simp
      | some n =>
        simp only []
        by_cases hn : n ≤ 0
        · rw [if_pos hn]
          simp only [Bool.false_or, Bool.or_false, Bool.true_and,
            decide_eq_true_eq]
          constructor
          · intro h; cases h
          · intro h; omega
        · rw [if_neg hn]
          simp only [Bool.false_or, Bool.or_false, Bool.true_and,
            decide_eq_true_eq]
          constructor
          · intro _; omega
          · intro _; trivial
    · have hstep' : isStepTok part = false := bool_false hstep
      by_cases hdash : hasChar '-' part = true
      · -- range branch
        rw [checkField, if_neg (by simp [hstar']), if_neg (by simp [hstep']),
          if_pos hdash]
        rw [specFieldOk, hstar', specStep, hstep', specList_false_dash hdash,
          specBare_false_of_dash hdash]
        simp only [Bool.false_and, Bool.false_or, Bool.or_false]
        rcases hsp : splitChar '-' part with _ | ⟨a, _ | ⟨b, _ | ⟨c3, t3⟩⟩⟩
        · simp [specRange, hsp]
        · simp [specRange, hsp]
        · -- the pair case
          have ha : a ∈ splitChar '-' part := by rw [hsp]; simp
          have hb : b ∈ splitChar '-' part := by rw [hsp]; simp
          have hna : hasChar '-' a = false := hasChar_false_of_mem_splitChar ha
          have hnb : hasChar '-' b = false := hasChar_false_of_mem_splitChar hb
          rw [specRange, hsp]
          simp only []
          rw [specTokenInt_eq_pyIntL hna, specTokenInt_eq_pyIntL hnb]
          cases hia : pyIntL a with
          | none => simp
          | some s =>
            cases hib : pyIntL b with
            | none => simp
            | some e =>
              simp only []
              by_cases hr : (inRange mn mx s && inRange mn mx e) = true
              · rw [if_pos hr]
                by_cases hse : s > e
                · rw [if_pos hse]
                  simp only [inRange, Bool.and_eq_true, decide_eq_true_eq] at hr ⊢
                  constructor
                  · intro h; cases h
                  · intro h; omega
                · rw [if_neg hse]
                  simp only [inRange, Bool.and_eq_true, decide_eq_true_eq] at hr ⊢
                  constructor
                  · intro _
                    refine ⟨⟨hr.1, hr.2⟩, ?_⟩
                    omega
                  · intro _; trivial
              · rw [if_neg hr]
                have hr' : (inRange mn mx s && inRange mn mx e) = false := bool_false hr
                simp only [inRange, Bool.and_eq_true, decide_eq_true_eq] at hr' ⊢
                constructor
                · intro h; cases h
                · intro h
                  exfalso
                  simp only [Bool.and_eq_false_iff, decide_eq_false_iff_not] at hr'
                  rcases h with ⟨⟨h1, h2⟩, _⟩
                  rcases hr' with h3 | h3 <;> rcases h3 with h4 | h4 <;> omega
        · simp [specRange, hsp]
      · have hdash' : hasChar '-' part = false := bool_false hdash
        by_cases hcomma : hasChar ',' part = true
        · -- list branch
          rw [checkField, if_neg (by simp [hstar']), if_neg (by simp [hstep']),
            if_neg (by simp [hdash']), if_pos hcomma]
          rw [specFieldOk, hstar', specStep, hstep',
            specRange_false_nodash hdash', specBare_false_comma hdash' hcomma]
          simp only [Bool.false_and, Bool.false_or, Bool.or_false]
          rw [specList, hcomma]
          have hcongr : optMapAll specTokenInt (splitChar ',' part) =
              optMapAll pyIntL (splitChar ',' part) := by
            refine optMapAll_congr (fun g hg => ?_)
            exact specTokenInt_eq_pyIntL (hasChar_false_in_piece hg hdash')
          rw [hcongr]
          cases hmap : optMapAll pyIntL (splitChar ',' part) with
          | none => simp
          | some vs =>
            simp only [Bool.true_and]
            cases hf : vs.find? (fun v => !inRange mn mx v) with
            | some v =>
              simp only []
              have hv := List.find?_some hf
              have hvm : v ∈ vs := List.mem_of_find?_eq_some hf
              constructor
              · intro h; cases h
              · intro hall
                exfalso
                have h2 := (List.all_eq_true.mp hall) v hvm
                simp only [Bool.not_eq_true'] at hv
                simp [h2] at hv
            | none =>
              simp only []
              constructor
              · intro _
                refine List.all_eq_true.mpr (fun v hv => ?_)
                have := List.find?_eq_none.mp hf v hv
                simpa using this
              · intro _; trivial
        · -- bare-integer branch
          have hcomma' : hasChar ',' part = false := bool_false hcomma
          rw [checkField, if_neg (by simp [hstar']), if_neg (by simp [hstep']),
            if_neg (by simp [hdash']), if_neg (by simp [hcomma'])]
          rw [specFieldOk, hstar', specStep, hstep',
            specRange_false_nodash hdash']
          rw [specList, hcomma']
          simp only [Bool.false_and, Bool.false_or, Bool.or_false]
          rw [specBare, specTokenInt_eq_pyIntL hdash']
          cases hp : pyIntL part with
          | none => simp
          | some v =>
            simp only []
            by_cases hr : inRange mn mx v = true
            · rw [if_pos hr]
              simp [hr]
            · have hr' : inRange mn mx v = false := bool_false hr
              rw [if_neg (by simp [hr'])]
              simp [hr']

theorem firstFieldError_cons_none {part : List Char} {mn mx : Int} {name : String}
    {rest : List (List Char × Int × Int × String)} :
    firstFieldError ((part, mn, mx, name) :: rest) = none ↔
      (checkField mn mx name part = none ∧ firstFieldError rest = none) := by
  cases h : checkField mn mx name part <;> simp [firstFieldError, h]

theorem length_eq_five {α : Type} {l : List α} (h : l.length = 5) :
    ∃ a b c d e, l = [a, b, c, d, e] := by
  rcases l with _ | ⟨a, _ | ⟨b, _ | ⟨c, _ | ⟨d, _ | ⟨e, _ | ⟨f, t⟩⟩⟩⟩⟩⟩
  · simp at h
  · simp at h
  · simp at h
  · simp at h
  · simp at h
  · exact ⟨a, b, c, d, e, rfl⟩
  · simp at h

theorem firstFieldError_five (p0 p1 p2 p3 p4 : List Char) :
    firstFieldError ([p0, p1, p2, p3, p4].zip cronFields) = none ↔
      (checkField 0 59 "分钟" p0 = none ∧ checkField 0 23 "小时" p1 = none ∧
       checkField 1 31 "日期" p2 = none ∧ checkField 1 12 "月份" p3 = none ∧
       checkField 0 7 "星期" p4 = none) := by
  have hnil : firstFieldError [] = none := rfl
  show firstFieldError
      [(p0, 0, 59, "分钟"), (p1, 0, 23, "小时"), (p2, 1, 31, "日期"),
       (p3, 1, 12, "月份"), (p4, 0, 7, "星期")] = none ↔ _
  simp only [firstFieldError_cons_none, hnil, and_true]

theorem scheduleSpecOk_iff {s : String} {p0 p1 p2 p3 p4 : List Char}
    (hps : pySplitWs s.data = [p0, p1, p2, p3, p4]) :
    (scheduleSpecOk s = true) ↔
      (specFieldOk 0 59 p0 = true ∧ specFieldOk 0 23 p1 = true ∧
       specFieldOk 1 31 p2 = true ∧ specFieldOk 1 12 p3 = true ∧
       specFieldOk 0 7 p4 = true) := by
  simp only [scheduleSpecOk, hps, specRanges, List.zip_cons_cons, List.zip_nil_right,
    List.all_cons, List.all_nil, Bool.and_eq_true]
  simp [and_assoc]

theorem validate_fst_true_iff {s : String} {p0 p1 p2 p3 p4 : List Char}
    (hps : pySplitWs s.data = [p0, p1, p2, p3, p4]) :
    ((validate_schedule s).fst = true) ↔
      firstFieldError ([p0, p1, p2, p3, p4].zip cronFields) = none := by
  simp only [validate_schedule, hps]
  rw [if_neg (by simp)]
  cases hfe : firstFieldError ([p0, p1, p2, p3, p4].zip cronFields) with
  | some m => simp
  | none => simp

/-- C5: `validate_schedule` succeeds exactly on the claim's grammar — the
expression splits into exactly 5 whitespace-separated fields and each field
is `*`, a step `*/N` with positive `N`, an in-range ordered range `A-B`, a
comma-separated list of in-range integers, or a single in-range integer
(ranges: minute 0-59, hour 0-23, day-of-month 1-31, month 1-12, day-of-week
0-7) — and any expression that does not split into exactly 5 fields fails
with the wrong-field-count error. -/
theorem claim_C5_validate_schedule_spec (s : String) :
    ((validate_schedule s).fst = true ↔ scheduleSpecOk s = true) ∧
    ((pySplitWs s.data).length ≠ 5 → validate_schedule s = (false, wrongCountMsg)) := by
  refine ⟨?_, fun h => by simp only [validate_schedule]; rw [if_pos h]⟩
  by_cases h : (pySplitWs s.data).length = 5
  · obtain ⟨p0, p1, p2, p3, p4, hps⟩ := length_eq_five h
    rw [validate_fst_true_iff hps, scheduleSpecOk_iff hps, firstFieldError_five]
    simp only [checkField_eq_spec]
  · have h1 : (validate_schedule s).fst = false := by
      simp only [validate_schedule]
      rw [if_pos h]
    have h2 : scheduleSpecOk s = false := by
      simp only [scheduleSpecOk]
      have : ((pySplitWs s.data).length == 5) = false := by
        simp [Nat.beq_eq_true_eq] at *
        omega
      rw [this, Bool.false_and]
    rw [h1, h2]

/-- Witness for C5 at concrete inputs: `"1 2 3"` has the wrong field count
and fails with that error, and `"*/5 0-10 1,15 * 3"` satisfies the claim's
grammar and validates. -/
theorem claim_C5_witness :
    validate_schedule "1 2 3" = (false, wrongCountMsg) ∧
    (validate_schedule "*/5 0-10 1,15 * 3").fst = true :=
  ⟨(claim_C5_validate_schedule_spec "1 2 3").2 (by decide),
   ((claim_C5_validate_schedule_spec "*/5 0-10 1,15 * 3").1).mpr (by decide)⟩

theorem checkField_star (mn mx : Int) (name : String) :
    checkField mn mx name ['*'] = none := rfl

theorem checkField_step_pos (mn mx : Int) (name : String) (tok : List Char)
    (n : Int) (htok : pyIntL tok = some n) (hn : 0 < n) :
    checkField mn mx name ('*' :: '/' :: tok) = none := by
  have h1 : (('*' :: '/' :: tok : List Char) == ['*']) = false := rfl
  have h2 : isStepTok ('*' :: '/' :: tok) = true := rfl
  have h3 : (('*' :: '/' :: tok : List Char).drop 2) = tok := rfl
  rw [checkField, if_neg (by simp [h1]), if_pos h2, h3, htok]
  simp only []
  rw [if_neg (by omega)]

/-- C10: for every field position, a step token `*/N` with any positive
integer `N` passes `validate_schedule` even when `N` exceeds that field's
numeric maximum — the step value is checked only for positivity, never
against the field's range. The schedule here has `*/N` at position `i` and
`*` everywhere else. -/
theorem claim_C10_step_ignores_range (s : String) (i : Nat) (tok : List Char)
    (n : Int)
    (hps : pySplitWs s.data =
      List.set [['*'], ['*'], ['*'], ['*'], ['*']] i ('*' :: '/' :: tok))
    (htok : pyIntL tok = some n) (hn : 0 < n) :
    (validate_schedule s).fst = true := by
  have hstep := fun mn mx name => checkField_step_pos mn mx name tok n htok hn
  rcases i with _ | _ | _ | _ | _ | i6
  · simp only [List.set] at hps
    rw [validate_fst_true_iff hps, firstFieldError_five]
    exact ⟨hstep _ _ _, checkField_star _ _ _, checkField_star _ _ _,
      checkField_star _ _ _, checkField_star _ _ _⟩
  · simp only [List.set] at hps
    rw [validate_fst_true_iff hps, firstFieldError_five]
    exact ⟨checkField_star _ _ _, hstep _ _ _, checkField_star _ _ _,
      checkField_star _ _ _, checkField_star _ _ _⟩
  · simp only [List.set] at hps
    rw [validate_fst_true_iff hps, firstFieldError_five]
    exact ⟨checkField_star _ _ _, checkField_star _ _ _, hstep _ _ _,
      checkField_star _ _ _, checkField_star _ _ _⟩
  · simp only [List.set] at hps
    rw [validate_fst_true_iff hps, firstFieldError_five]
    exact ⟨checkField_star _ _ _, checkField_star _ _ _, checkField_star _ _ _,
      hstep _ _ _, checkField_star _ _ _⟩
  · simp only [List.set] at hps
    rw [validate_fst_true_iff hps, firstFieldError_five]
    exact ⟨checkField_star _ _ _, checkField_star _ _ _, checkField_star _ _ _,
      checkField_star _ _ _, hstep _ _ _⟩
  · simp only [List.set] at hps
    rw [validate_fst_true_iff hps, firstFieldError_five]
    exact ⟨checkField_star _ _ _, checkField_star _ _ _, checkField_star _ _ _,
      checkField_star _ _ _, checkField_star _ _ _⟩

/-- Witness for C10: `*/120` in the minute field (maximum 59) validates. -/
theorem claim_C10_witness : (validate_schedule "*/120 * * * *").fst = true :=
  claim_C10_step_ignores_range "*/120 * * * *" 0 ['1', '2', '0'] 120
    (by decide) (by decide) (by decide)

theorem mem_concatAll {α : Type} {a : α} {l : List α} {ls : List (List α)}
    (hl : l ∈ ls) (ha : a ∈ l) : a ∈ concatAll ls := by
  induction ls with
  | nil => simp at hl
  | cons x xs ih =>
    rcases List.mem_cons.mp hl with rfl | h2
    · exact List.mem_append_left _ ha
    · exact List.mem_append_right _ (ih h2)

/-- C1: whenever validation of the environment fails (any cause: bad
schedule, bad command, missing required field, duplicate job name, all of
which make `validate` return `False`), `deploy` returns the aggregate
validation failure immediately — boolean result `False` — with an empty
per-host trace: no SSH connection, backup, upload, or install is performed
on any host. -/
theorem claim_C1_validation_gate (c : Config) (hostsArg : Option (List String))
    (dryRun : Bool) (worlds : String → HostWorld) (now : String)
    (h : (c.validate).fst = false) :
    deploy c hostsArg dryRun worlds now =
      (DeployResult.validationFailed (c.validate).snd, []) ∧
    (deploy c hostsArg dryRun worlds now).fst.toBool = false := by
  have h1 : deploy c hostsArg dryRun worlds now =
      (DeployResult.validationFailed (c.validate).snd, []) := by
    simp [deploy, h]
  exact ⟨h1, by rw [h1]; rfl⟩

/-- Witness for C1: a configuration missing the required `jobs` key fails
validation and `deploy` aborts with zero host work. -/
theorem claim_C1_witness :
    deploy cfgNoJobs none false worldsOk "t" =
      (DeployResult.validationFailed (cfgNoJobs.validate).snd, []) ∧
    (deploy cfgNoJobs none false worldsOk "t").fst.toBool = false :=
  claim_C1_validation_gate cfgNoJobs none false worldsOk "t" (by decide)

/-- C2 counterexample: a run of `deploy_crontab` in which the SSH session
opens and the upload succeeds but the install command exits non-zero ends in
a failed outcome whose trace contains no `closeMain`: the session is not
closed on this exit path, refuting the claim that it is closed on every exit
path. -/
theorem claim_C2_counterexample :
    wInstallFail.connectOk = true ∧
    (deploy_crontab wInstallFail true).fst.fst = false ∧
    Act.closeMain ∉ (deploy_crontab wInstallFail true).snd := by
  decide

/-- C2 amended: the session opened by `deploy_crontab` is closed exactly on
the fully successful exit path; on exit paths that end in a failed outcome
after the session was opened (upload error, non-zero install exit status)
the procedure returns without closing it. -/
theorem claim_C2_close_iff_success (w : HostWorld) (backup : Bool) :
    (Act.closeMain ∈ (deploy_crontab w backup).snd) ↔
      ((deploy_crontab w backup).fst.fst = true) := by
  rcases w with ⟨co, ce, bo, bp, be, uo, ue, ine, ier, lc⟩
  cases co <;> cases uo <;> cases bo <;> cases backup <;>
    cases hie : (ine == 0) <;>
      simp [deploy_crontab, backup_crontab, hie]

/-- C3 counterexample: a configuration that passes validation but flattens
to zero hosts makes `deploy` return the distinct no-hosts abort — an
aggregate failure (`False`) with no outcomes and no remote actions — not an
empty outcome list. -/
theorem claim_C3_counterexample :
    (cfgNoHosts.validate).fst = true ∧
    deploy cfgNoHosts none false worldsOk "t" = (DeployResult.noHosts, []) ∧
    (deploy cfgNoHosts none false worldsOk "t").fst ≠ DeployResult.completed [] ∧
    (deploy cfgNoHosts none false worldsOk "t").fst.toBool = false := by
  decide

/-- C3 amended: when validation passes and the resolved target host list is
empty, `deploy` aborts through the dedicated no-hosts branch — distinct from
the validation-gate rejection — returning an aggregate failure (`False`)
with zero outcomes and zero remote actions, rather than an empty outcome
list. -/
theorem claim_C3_empty_hosts (c : Config) (hostsArg : Option (List String))
    (dryRun : Bool) (worlds : String → HostWorld) (now : String)
    (hv : (c.validate).fst = true)
    (hh : (match hostsArg with
           | some hs => hs
           | none => c.get_hosts none) = []) :
    deploy c hostsArg dryRun worlds now = (DeployResult.noHosts, []) ∧
    DeployResult.noHosts.toBool = false := by
  refine ⟨?_, rfl⟩
  simp only [deploy, hv, hh]
  simp

/-- Witness for C3 (amended): the concrete no-host configuration. -/
theorem claim_C3_witness :
    deploy cfgNoHosts none false worldsOk "t" = (DeployResult.noHosts, []) ∧
    DeployResult.noHosts.toBool = false :=
  claim_C3_empty_hosts cfgNoHosts none false worldsOk "t" (by decide) (by decide)

/-- C4 counterexample: an address listed in two host groups appears twice in
the flattened host list and the per-host procedure is executed once per
occurrence — twice for that address — refuting deduplication of the
flattened list. -/
theorem claim_C4_counterexample :
    cfgDupHost.get_hosts none = ["h1", "h1"] ∧
    ((deploy cfgDupHost none false worldsOk "t").snd.map Prod.fst) =
      ["h1", "h1"] ∧
    ¬ (((deploy cfgDupHost none false worldsOk "t").snd.map Prod.fst).count "h1"
        ≤ 1) := by
  decide

/-- C4 amended: no deduplication is performed at any stage: the per-host
procedure is executed exactly once per occurrence of an address in the
flattened host list, so an address appearing in k groups is deployed to k
times. -/
theorem claim_C4_no_dedup (c : Config) (worlds : String → HostWorld)
    (now : String) (hv : (c.validate).fst = true)
    (hne : c.get_hosts none ≠ []) :
    ((deploy c none false worlds now).snd.map Prod.fst) = c.get_hosts none := by
  have hemp : (c.get_hosts none).isEmpty = false := by
    cases h : c.get_hosts none
    · exact absurd h hne
    · rfl
  simp only [deploy, hv, hemp]
  simp only [Bool.false_eq_true, if_false, if_true, List.map_map]
  generalize c.get_hosts none = hs
  induction hs with
  | nil => rfl
  | cons a t ih => simp only [List.map_cons, Function.comp, ih]

/-- Witness for C4 (amended): the duplicate-host configuration runs the
procedure once per occurrence. -/
theorem claim_C4_witness :
    ((deploy cfgDupHost none false worldsOk "t").snd.map Prod.fst) =
      cfgDupHost.get_hosts none :=
  claim_C4_no_dedup cfgDupHost worldsOk "t" (by decide) (by decide)

/-- C6: every enabled job emitted by the renderer contributes the line
`<schedule> <redirected command>` to the output, where the redirected
command is the job's command text with ` >> <stdout path>` appended when the
stdout log path is set, then ` 2>> <stderr path>` when a stderr log path is
also set, ` 2>&1` when only the stdout path is set, and left unchanged when
neither path is set. -/
theorem claim_C6_redirection (c : Config) (user : Option String) (now : String)
    (j : Job) (hj : j ∈ emittedJobs c user) :
    jobCmdLine j ∈ generate_crontab_lines c user now ∧
    (truthy j.log_stdout = true → truthy j.log_stderr = true →
      applyRedirect j = j.command.getD "" ++ " >> " ++ j.log_stdout.getD "" ++
        " 2>> " ++ j.log_stderr.getD "") ∧
    (truthy j.log_stdout = true → truthy j.log_stderr = false →
      applyRedirect j =
        j.command.getD "" ++ " >> " ++ j.log_stdout.getD "" ++ " 2>&1") ∧
    (truthy j.log_stdout = false → truthy j.log_stderr = false →
      applyRedirect j = j.command.getD "") := by
  refine ⟨?_, ?_, ?_, ?_⟩
  · have h1 : jobCmdLine j ∈ jobBlock j := by
      simp [jobBlock]
    have h2 : jobBlock j ∈ (emittedJobs c user).map jobBlock :=
      List.mem_map_of_mem jobBlock hj
    exact List.mem_append_right _ (mem_concatAll h2 h1)
  · intro hso hse
    simp [applyRedirect, hso, hse]
  · intro hso hse
    simp [applyRedirect, hso, hse]
  · intro hso hse
    simp [applyRedirect, hso, hse]

/-- Witness for C6: a job with both log paths set is emitted with both
redirections appended. -/
theorem claim_C6_witness :
    jobCmdLine jobLogs ∈ generate_crontab_lines cfgLogs none "t" ∧
    applyRedirect jobLogs = "echo hi >> /var/log/o.log 2>> /var/log/e.log" := by
  have h := claim_C6_redirection cfgLogs none "t" jobLogs (by decide)
  refine ⟨h.1, ?_⟩
  rw [h.2.1 (by decide) (by decide)]
  decide

/-- C7: for a fixed configuration value and user filter the renderer's
output depends on ambient state only through the header timestamp line
(index 1): stripping that line yields identical line lists, and identical
joined output bytes, for any two clock readings. -/
theorem claim_C7_deterministic (c : Config) (user : Option String)
    (t1 t2 : String) :
    ((generate_crontab_lines c user t1).eraseIdx 1 =
      (generate_crontab_lines c user t2).eraseIdx 1) ∧
    (String.intercalate "\n" ((generate_crontab_lines c user t1).eraseIdx 1) =
      String.intercalate "\n" ((generate_crontab_lines c user t2).eraseIdx 1)) := by
  have h : (generate_crontab_lines c user t1).eraseIdx 1 =
      (generate_crontab_lines c user t2).eraseIdx 1 := by
    simp [generate_crontab_lines, List.eraseIdx]
  exact ⟨h, by rw [h]⟩

/-- C8: a backup failure does not abort a host's deployment and does not by
itself change the outcome: with backup requested, flipping only the
backup-success oracle leaves the returned outcome identical; on backup
failure only the warning is emitted, and the upload still proceeds (and the
install too, whenever the upload succeeds). -/
theorem claim_C8_backup_advisory (w : HostWorld) (h : w.connectOk = true) :
    ((deploy_crontab { w with backupOk := false } true).fst =
      (deploy_crontab { w with backupOk := true } true).fst) ∧
    Act.warnBackup ∈ (deploy_crontab { w with backupOk := false } true).snd ∧
    Act.upload ∈ (deploy_crontab { w with backupOk := false } true).snd ∧
    (w.uploadOk = true →
      Act.install ∈ (deploy_crontab { w with backupOk := false } true).snd) := by
  rcases w with ⟨co, ce, bo, bp, be, uo, ue, ine, ier, lc⟩
  subst h
  cases uo <;> cases hie : (ine == 0) <;>
    simp [deploy_crontab, backup_crontab, hie]

/-- Witness for C8: a concrete connected world; with backup failing, the
outcome matches the backup-success outcome and upload/install still run. -/
theorem claim_C8_witness :
    ((deploy_crontab { wOk with backupOk := false } true).fst =
      (deploy_crontab { wOk with backupOk := true } true).fst) ∧
    Act.warnBackup ∈ (deploy_crontab { wOk with backupOk := false } true).snd ∧
    Act.upload ∈ (deploy_crontab { wOk with backupOk := false } true).snd ∧
    Act.install ∈ (deploy_crontab { wOk with backupOk := false } true).snd :=
  ⟨(claim_C8_backup_advisory wOk rfl).1,
   (claim_C8_backup_advisory wOk rfl).2.1,
   (claim_C8_backup_advisory wOk rfl).2.2.1,
   (claim_C8_backup_advisory wOk rfl).2.2.2 rfl⟩
